import Mathlib

/-!
Verification of the Trainfuck interpreter (`src/interpreter.rs`): a Brainfuck
interpreter with networking extensions.  The development shallowly embeds the
parser and the virtual machine and proves the specified properties about them.

Modelling conventions:
* `usize` and `u8`/`u16` arithmetic is modelled on `Nat` with explicit
  wrapping (`% 2^64`, `% 256`) or explicit checked subtraction where the Rust
  code can underflow; a Rust panic (index out of bounds, arithmetic underflow
  in the default checked build) is the `Res.crash` result.
* The tape `Vec<u8>` is a total function `Nat → Nat` whose cells are kept
  below 256 by the cell operations; accesses at `self.pointer` are in bounds
  by the pointer invariant (proved below), so they are modelled as plain
  function application, while `read_address_from_tape`/`read_port_from_tape`
  index up to `pointer + 5` and are modelled with the explicit bounds check
  (`tape_get`), whose `none` branch is the Rust panic branch.
* Standard input is the list of bytes remaining on stdin, standard output the
  list of bytes written so far.  The network world (whether `bind`, `connect`,
  `accept`, a socket write or flush succeeds, and which read outcomes the
  connection delivers) is part of the machine record as an explicit oracle;
  `sent` records the bytes written to the connection.  Diagnostic `eprintln!`
  lines are observational only and are not modelled.
* Execution is fuel-indexed (structural recursion on the fuel); `Res.noFuel`
  is the artefact result for exhausted fuel and corresponds to no Rust
  behaviour (the Rust loop simply keeps running).
-/

/-- Memory tape size (30KB as per original Brainfuck spec), `TAPE_SIZE`. -/
def TAPE_SIZE : Nat := 30000

/-- Number of values of `usize` (the build targets a 64-bit machine). -/
def USIZE : Nat := 2 ^ 64

/-- The backtick character (networking receive command). -/
def chBacktick : Char := Char.ofNat 96

/-- The single-quote character (networking send command). -/
def chQuote : Char := Char.ofNat 39

/-- `enum Op`: parsed Trainfuck operations. -/
inductive Op where
  | moveRight (n : Nat)
  | moveLeft (n : Nat)
  | increment (n : Nat)
  | decrement (n : Nat)
  | output
  | input
  | loop (body : List Op)
  | connect
  | listen
  | accept
  | receive
  | send

/-- `enum TrainfuckError`.  The payloads of `IoError`/`NetworkError` (an OS
error value, a message string) are abstracted away. -/
inductive TrainfuckError where
  | unmatchedOpenBracket (pos : Nat)
  | unmatchedCloseBracket (pos : Nat)
  | ioError
  | networkError
  deriving DecidableEq

/-- `count_consecutive(chars, start, target)`:
`chars[start..].iter().take_while(|&&c| c == target).count()`.
Here `chars` is already the suffix `chars[start..]`. -/
def count_consecutive (chars : List Char) (target : Char) : Nat :=
  (chars.takeWhile (fun c => c == target)).length

/-- The bracket scan of `parse_loop`: starting just after a `[` (so `chars`
is the text after it and `depth` starts at 1), each `[` increments and each
`]` decrements the depth; the match is the first position whose character
brings the depth to 0.  Returns the index of the matching `]` relative to
`chars`, or `none` when the scan reaches the end with positive depth. -/
def scan_match : List Char → Nat → Option Nat
  | [], _ => none
  | c :: rest, depth =>
    let d := if c = '[' then depth + 1 else if c = ']' then depth - 1 else depth
    if d = 0 then some 0
    else
      match scan_match rest d with
      | some k => some (k + 1)
      | none => none

/-- The scanning loop of `parse`, over the remaining source `chars[i..]`
(passed as the list) together with the current index `i` (used only for
error positions).  Each arm mirrors one `match chars[i]` arm of the Rust
`parse`; the `'['` arm inlines `parse_loop` (bracket scan, recursive parse of
the text strictly between the brackets — with positions relative to that
substring, as in the Rust code which re-parses the extracted `String` —
then continuation after the closing bracket). -/
def parseAux : List Char → Nat → Except TrainfuckError (List Op)
  | [], _ => .ok []
  | c :: rest, i =>
    if h : c = '>' then
      let count := count_consecutive (c :: rest) '>'
      match parseAux ((c :: rest).drop count) (i + count) with
      | .ok ops => .ok (.moveRight count :: ops)
      | .error e => .error e
    else if h : c = '<' then
      let count := count_consecutive (c :: rest) '<'
      match parseAux ((c :: rest).drop count) (i + count) with
      | .ok ops => .ok (.moveLeft count :: ops)
      | .error e => .error e
    else if h : c = '+' then
      let count := count_consecutive (c :: rest) '+'
      match parseAux ((c :: rest).drop count) (i + count) with
      | .ok ops => .ok (.increment (count % 256) :: ops)
      | .error e => .error e
    else if h : c = '-' then
      let count := count_consecutive (c :: rest) '-'
      match parseAux ((c :: rest).drop count) (i + count) with
      | .ok ops => .ok (.decrement (count % 256) :: ops)
      | .error e => .error e
    else if c = '.' then
      match parseAux rest (i + 1) with
      | .ok ops => .ok (.output :: ops)
      | .error e => .error e
    else if c = ',' then
      match parseAux rest (i + 1) with
      | .ok ops => .ok (.input :: ops)
      | .error e => .error e
    else if c = '[' then
      match scan_match rest 1 with
      | none => .error (.unmatchedOpenBracket i)
      | some k =>
        match parseAux (rest.take k) 0 with
        | .error e => .error e
        | .ok inner =>
          match parseAux (rest.drop (k + 1)) (i + k + 2) with
          | .error e => .error e
          | .ok ops => .ok (.loop inner :: ops)
    else if c = ']' then .error (.unmatchedCloseBracket i)
    else if c = '%' then
      match parseAux rest (i + 1) with
      | .ok ops => .ok (.connect :: ops)
      | .error e => .error e
    else if c = '$' then
      match parseAux rest (i + 1) with
      | .ok ops => .ok (.listen :: ops)
      | .error e => .error e
    else if c = '@' then
      match parseAux rest (i + 1) with
      | .ok ops => .ok (.accept :: ops)
      | .error e => .error e
    else if c = chBacktick then
      match parseAux rest (i + 1) with
      | .ok ops => .ok (.receive :: ops)
      | .error e => .error e
    else if c = chQuote then
      match parseAux rest (i + 1) with
      | .ok ops => .ok (.send :: ops)
      | .error e => .error e
    else parseAux rest (i + 1)
  termination_by l _ => l.length
  decreasing_by
    all_goals simp only [List.length_drop, List.length_take, List.length_cons]
    all_goals first
      | omega
      | (subst h
         simp only [count_consecutive, List.takeWhile_cons, beq_self_eq_true, if_true,
           List.length_cons]
         omega)

/-- `pub fn parse(source: &str)`: the source is given as its character list. -/
def parse (source : List Char) : Except TrainfuckError (List Op) :=
  parseAux source 0

/-- Outcome of one `read` call on the connection socket: `Ok(0)`
(stream closed), `Ok(_)` with the byte read, or `Err(_)`. -/
inductive ReadOutcome where
  | closed
  | byte (b : Nat)
  | readErr
  deriving DecidableEq

/-- `struct VM`.  `tape`, `pointer`, `listener`/`connection` presence and the
stdin/stdout streams mirror the Rust fields; the remaining fields model the
external world the sockets touch (see the header comment): `sent` is the
sequence of bytes written to the connection, `recvEvs` the pending outcomes
the connection's reads will deliver (an empty list behaves as a closed
stream), and the `…Ok` flags say whether the corresponding OS call succeeds. -/
structure VM where
  tape : Nat → Nat
  pointer : Nat
  listener : Bool
  connection : Bool
  input : List Nat
  output : List Nat
  sent : List Nat
  recvEvs : List ReadOutcome
  bindOk : Bool
  acceptOk : Bool
  connectOk : Bool
  sendOk : Bool
  flushOk : Bool

/-- `VM::new()`: zeroed tape, pointer 0, no listener, no connection, the
given stdin contents, empty output.  The world oracle defaults to every OS
call succeeding and nothing arriving on the network. -/
def VM.new (stdin : List Nat) : VM :=
  { tape := fun _ => 0
    pointer := 0
    listener := false
    connection := false
    input := stdin
    output := []
    sent := []
    recvEvs := []
    bindOk := true
    acceptOk := true
    connectOk := true
    sendOk := true
    flushOk := true }

/-- Result of executing operations: normal completion, a propagated
`TrainfuckError` (carrying the machine state at the moment of propagation),
a Rust panic (`crash`), or fuel exhaustion (model artefact). -/
inductive Res where
  | ok (vm : VM)
  | err (e : TrainfuckError) (vm : VM)
  | crash
  | noFuel

/-- `self.tape[i] = v` for `i = self.pointer` (in bounds by the pointer
invariant). -/
def set_cell (vm : VM) (v : Nat) : VM :=
  { vm with tape := fun j => if j = vm.pointer then v else vm.tape j }

/-- `self.tape[i]` with the bounds check of Rust `Vec` indexing made
explicit: `none` is the panic branch. -/
def tape_get (vm : VM) (i : Nat) : Option Nat :=
  if i < TAPE_SIZE then some (vm.tape i) else none

/-- `read_address_from_tape`: the four octets `tape[pointer] … tape[pointer+3]`
of the IPv4 address, in the order `Ipv4Addr::new` receives them (network /
big-endian order).  `none` when an index is out of bounds (panic). -/
def read_address_from_tape (vm : VM) : Option (Nat × Nat × Nat × Nat) :=
  match tape_get vm vm.pointer, tape_get vm (vm.pointer + 1),
      tape_get vm (vm.pointer + 2), tape_get vm (vm.pointer + 3) with
  | some a, some b, some c, some d => some (a, b, c, d)
  | _, _, _, _ => none

/-- `read_port_from_tape`:
`((tape[pointer+4] as u16) << 8) | (tape[pointer+5] as u16)`.  Both operands
are `u8` values, so the `u16` shift-or is exactly `hi * 256 + lo`.  `none`
when an index is out of bounds (panic). -/
def read_port_from_tape (vm : VM) : Option Nat :=
  match tape_get vm (vm.pointer + 4), tape_get vm (vm.pointer + 5) with
  | some hi, some lo => some (hi * 256 + lo)
  | _, _ => none

/-- Checked `usize` subtraction: the Rust expression `a - b` on `usize`
panics when `b > a` (overflow-checked build; a release build would wrap,
leaving an equally out-of-range value). -/
def usize_sub (a b : Nat) : Option Nat :=
  if b ≤ a then some (a - b) else none

/-- `VM::net_listen`: toggle the listener closed if present; otherwise read
address and port from the tape (panicking on an out-of-bounds index), then
bind — a bind failure is a fatal `NetworkError`. -/
def net_listen (vm : VM) : Res :=
  if vm.listener then .ok { vm with listener := false }
  else
    match read_address_from_tape vm with
    | none => .crash
    | some _ =>
      match read_port_from_tape vm with
      | none => .crash
      | some _ =>
        if vm.bindOk then .ok { vm with listener := true }
        else .err .networkError vm

/-- `VM::net_accept`: close the connection if one is active; otherwise, with
a listener present, block until `accept` returns — failure is a fatal
`NetworkError`, success installs the connection.  With neither a connection
nor a listener this is a no-op. -/
def net_accept (vm : VM) : Res :=
  if vm.connection then .ok { vm with connection := false }
  else if vm.listener then
    if vm.acceptOk then .ok { vm with connection := true }
    else .err .networkError vm
  else .ok vm

/-- `VM::net_connect`: toggle the connection closed if active; otherwise read
address and port from the tape (panicking on an out-of-bounds index), then
connect — a connect failure is a fatal `NetworkError`. -/
def net_connect (vm : VM) : Res :=
  if vm.connection then .ok { vm with connection := false }
  else
    match read_address_from_tape vm with
    | none => .crash
    | some _ =>
      match read_port_from_tape vm with
      | none => .crash
      | some _ =>
        if vm.connectOk then .ok { vm with connection := true }
        else .err .networkError vm

/-- `VM::net_receive`: with a connection, read one byte from it — a closed
stream (`Ok(0)`) or a read error both store 0 (the error is only logged);
a byte read is stored in the current cell (it is a `u8`, hence the `% 256`
on the oracle's value).  With no connection, store 0.  Always `Ok(())`. -/
def net_receive (vm : VM) : Res :=
  if vm.connection then
    let vm' := { vm with recvEvs := vm.recvEvs.tail }
    match vm.recvEvs.headD .closed with
    | .closed => .ok (set_cell vm' 0)
    | .byte b => .ok (set_cell vm' (b % 256))
    | .readErr => .ok (set_cell vm' 0)
  else .ok (set_cell vm 0)

/-- `VM::net_send`: with a connection, `write_all` the byte at the current
cell and flush; a write failure is a fatal `NetworkError`, a flush failure a
fatal I/O error.  With no connection this is a silent no-op. -/
def net_send (vm : VM) : Res :=
  if vm.connection then
    if vm.sendOk then
      let vm' := { vm with sent := vm.sent ++ [vm.tape vm.pointer] }
      if vm.flushOk then .ok vm'
      else .err .ioError vm'
    else .err .networkError vm
  else .ok vm

mutual

/-- `VM::execute`: run the operations in sequence, stopping at the first
non-`Ok` result (`?` propagation).  Fuel-indexed; one unit of fuel is spent
per list step. -/
def execute : Nat → List Op → VM → Res
  | _, [], vm => .ok vm
  | 0, _ :: _, _ => .noFuel
  | fuel + 1, op :: rest, vm =>
    match execute_op fuel op vm with
    | .ok vm' => execute fuel rest vm'
    | r => r

/-- `VM::execute_op`, one arm per operation:
* `MoveRight(n)`: `pointer = pointer.wrapping_add(n)`, then reduced
  `% TAPE_SIZE` if it is not below `TAPE_SIZE`;
* `MoveLeft(n)`: wrap to `TAPE_SIZE - (n - pointer)` when `n > pointer`
  (a `usize` subtraction that panics when `n - pointer > TAPE_SIZE`),
  else `pointer - n`;
* `Increment`/`Decrement`: wrapping `u8` cell arithmetic;
* `Output`: write the current cell to stdout and flush;
* `Input`: read one byte from stdin, end of stream stores 0;
* `Loop(body)`: `while tape[pointer] != 0 { execute(body)? }` — the cell at
  the current pointer is tested before every iteration, re-entry spends
  one unit of fuel;
* networking operations dispatch to their `net_*` method. -/
def execute_op : Nat → Op → VM → Res
  | _, .moveRight n, vm =>
    let p := (vm.pointer + n) % USIZE
    .ok { vm with pointer := if TAPE_SIZE ≤ p then p % TAPE_SIZE else p }
  | _, .moveLeft n, vm =>
    if vm.pointer < n then
      match usize_sub TAPE_SIZE (n - vm.pointer) with
      | some p => .ok { vm with pointer := p }
      | none => .crash
    else .ok { vm with pointer := vm.pointer - n }
  | _, .increment n, vm =>
    .ok (set_cell vm ((vm.tape vm.pointer + n) % 256))
  | _, .decrement n, vm =>
    .ok (set_cell vm ((vm.tape vm.pointer + (256 - n % 256)) % 256))
  | _, .output, vm =>
    .ok { vm with output := vm.output ++ [vm.tape vm.pointer] }
  | _, .input, vm =>
    match vm.input with
    | [] => .ok (set_cell vm 0)
    | b :: bs => .ok { set_cell vm (b % 256) with input := bs }
  | fuel, .loop body, vm =>
    if vm.tape vm.pointer = 0 then .ok vm
    else
      match fuel with
      | 0 => .noFuel
      | f + 1 =>
        match execute f body vm with
        | .ok vm' => execute_op f (.loop body) vm'
        | r => r
  | _, .listen, vm => net_listen vm
  | _, .accept, vm => net_accept vm
  | _, .connect, vm => net_connect vm
  | _, .receive, vm => net_receive vm
  | _, .send, vm => net_send vm

end

/-- Parse a source text and execute it on a fresh machine with the given
stdin, projecting out the bytes written to stdout; `none` when parsing
fails, execution fails, or the fuel runs out. -/
def run_output (source : List Char) (stdin : List Nat) (fuel : Nat) : Option (List Nat) :=
  match parse source with
  | .error _ => none
  | .ok ops =>
    match execute fuel ops (VM.new stdin) with
    | .ok vm => some vm.output
    | _ => none

/-- The character list of the program text of the end-to-end scenario,
`++++++++[>++++++++<-]>.` . -/
def c3src : List Char :=
  ['+', '+', '+', '+', '+', '+', '+', '+', '[', '>', '+', '+', '+', '+',
   '+', '+', '+', '+', '<', '-', ']', '>', '.']

/-- Bracket-depth contribution of one character. -/
def delta (c : Char) : Int :=
  if c = '[' then 1 else if c = ']' then -1 else 0

/-- Bracket depth of a text: number of `[` minus number of `]`. -/
def depthOf (l : List Char) : Int :=
  (l.map delta).sum

/-- Position `j` of the text holds a `]` whose enclosing bracket depth is
zero (a close bracket with no enclosing open bracket). -/
def BadClose (l : List Char) (j : Nat) : Prop :=
  l.get? j = some ']' ∧ depthOf (l.take j) = 0

instance (l : List Char) (j : Nat) : Decidable (BadClose l j) := by
  unfold BadClose; infer_instance

/-- `j` is the first such position. -/
def FirstBadClose (l : List Char) (j : Nat) : Prop :=
  BadClose l j ∧ ∀ m, m < j → ¬ BadClose l m

instance (l : List Char) (j : Nat) : Decidable (FirstBadClose l j) := by
  unfold FirstBadClose; infer_instance

/-- No close bracket of the text sits at bracket depth zero. -/
def NoBadClose (l : List Char) : Prop :=
  ∀ j, j < l.length → ¬ BadClose l j

instance (l : List Char) : Decidable (NoBadClose l) := by
  unfold NoBadClose; infer_instance

/-- Position `j` holds a `[` at depth zero whose matching `]` never arrives:
the bracket depth stays positive from there to the end of the text.  This is
exactly the open bracket whose depth-counting scan fails. -/
def TopUnmatchedOpen (l : List Char) (j : Nat) : Prop :=
  l.get? j = some '[' ∧ depthOf (l.take j) = 0 ∧
    ∀ k, k ≤ l.length → j < k → 0 < depthOf (l.take k)

instance (l : List Char) (j : Nat) : Decidable (TopUnmatchedOpen l j) := by
  unfold TopUnmatchedOpen; infer_instance

/-- Every prefix of the text has nonnegative bracket depth and the whole
text has depth zero (all brackets match). -/
def BalancedText (l : List Char) : Prop :=
  (∀ k, k ≤ l.length → 0 ≤ depthOf (l.take k)) ∧ depthOf l = 0

/-- Iterated execution of a loop body, exactly as the `while` loop of the
`Loop` arm behaves: the cell at the pointer of the current state is tested
before every iteration; a zero test ends the run at once, a nonzero test is
followed by one complete successful execution of the body, after which the
new state is tested again. -/
inductive LoopRun (body : List Op) : VM → VM → Prop where
  | done (vm : VM) : vm.tape vm.pointer = 0 → LoopRun body vm vm
  | step (vm vm' vmf : VM) (f : Nat) : vm.tape vm.pointer ≠ 0 →
      execute f body vm = .ok vm' → LoopRun body vm' vmf → LoopRun body vm vmf

/-- A machine with an active connection (used to instantiate theorems about
the networking operations). -/
def vmConn : VM := { VM.new [] with connection := true }

/-- A machine with an active connection on which one byte (65) is waiting to
be read. -/
def vmRecv : VM := { VM.new [] with connection := true, recvEvs := [ReadOutcome.byte 65] }

/-- A machine whose pointer sits at the last tape cell (a reachable state:
29999 moves right from a fresh machine). -/
def vmEdge : VM := { VM.new [] with pointer := 29999 }

/-- A machine whose pointer sits at 29995 (a reachable state). -/
def vmEdge2 : VM := { VM.new [] with pointer := 29995 }

/-- C1 counterexample: `MoveLeft(30001)` (the parse of a run of 30001 `<`
characters) executed at pointer 0 does not leave the pointer in
`[0, 30000)` — the `usize` subtraction `30000 - (30001 - 0)` underflows and
the machine panics instead. -/
theorem C1_moveLeft_underflow_cex :
    execute_op 0 (.moveLeft 30001) (VM.new []) = .crash := rfl

/-- C1 (amended): from any pointer in `[0, 30000)`, `MoveRight(n)` whose
`usize` addition does not overflow leaves the pointer at
`(pointer + n) % 30000`, and `MoveLeft(n)` with `n ≤ pointer + 30000` leaves
it at `30000 - (n - pointer)` when `n > pointer`, else at `pointer - n`; in
both cases the new pointer is again in `[0, 30000)`.  (For
`n - pointer > 30000` the `MoveLeft` arm instead panics — see the
counterexample.) -/
theorem C1_pointer_wraparound (vm : VM) (n fuel : Nat) (hp : vm.pointer < TAPE_SIZE) :
    (vm.pointer + n < USIZE →
      execute_op fuel (.moveRight n) vm =
        .ok { vm with pointer := (vm.pointer + n) % TAPE_SIZE } ∧
      (vm.pointer + n) % TAPE_SIZE < TAPE_SIZE) ∧
    (n ≤ vm.pointer + TAPE_SIZE →
      execute_op fuel (.moveLeft n) vm =
        .ok { vm with pointer :=
          if vm.pointer < n then TAPE_SIZE - (n - vm.pointer) else vm.pointer - n } ∧
      (if vm.pointer < n then TAPE_SIZE - (n - vm.pointer) else vm.pointer - n) < TAPE_SIZE) := by
  constructor
  · intro hov
    have h1 : (vm.pointer + n) % USIZE = vm.pointer + n := Nat.mod_eq_of_lt hov
    constructor
    · rw [execute_op.eq_def]
      simp only [h1]
      by_cases hge : TAPE_SIZE ≤ vm.pointer + n
      · simp [hge]
      · have h2 : (vm.pointer + n) % TAPE_SIZE = vm.pointer + n :=
          Nat.mod_eq_of_lt (lt_of_not_ge hge)
        simp [hge, h2]
    · exact Nat.mod_lt _ (by norm_num [TAPE_SIZE])
  · intro hle
    by_cases hlt : vm.pointer < n
    · have hsub : usize_sub TAPE_SIZE (n - vm.pointer) = some (TAPE_SIZE - (n - vm.pointer)) := by
        unfold usize_sub
        rw [if_pos (by omega)]
      constructor
      · rw [execute_op.eq_def]
        simp only [if_pos hlt, hsub]
      · simp only [if_pos hlt]
        simp only [TAPE_SIZE] at *
        omega
    · constructor
      · rw [execute_op.eq_def]
        simp [hlt]
      · simp only [if_neg hlt]
        simp only [TAPE_SIZE] at *
        omega

/-- C1 witness: the two spec examples — from pointer 29999 one `>` wraps to
`(29999 + 1) % 30000 = 0`, and from pointer 0 one `<` wraps to
`30000 - (1 - 0) = 29999`. -/
theorem C1_pointer_wraparound_witness :
    (vmEdge.pointer < TAPE_SIZE ∧ vmEdge.pointer + 1 < USIZE ∧
      execute_op 0 (.moveRight 1) vmEdge =
        .ok { vmEdge with pointer := (vmEdge.pointer + 1) % TAPE_SIZE }) ∧
    ((VM.new []).pointer < TAPE_SIZE ∧ 1 ≤ (VM.new []).pointer + TAPE_SIZE ∧
      execute_op 0 (.moveLeft 1) (VM.new []) =
        .ok { VM.new [] with pointer :=
          if (VM.new []).pointer < 1 then TAPE_SIZE - (1 - (VM.new []).pointer)
          else (VM.new []).pointer - 1 }) := by
  refine ⟨⟨by decide, by decide, ?_⟩, ⟨by decide, by decide, ?_⟩⟩
  · exact ((C1_pointer_wraparound vmEdge 1 0 (by decide)).1 (by decide)).1
  · exact ((C1_pointer_wraparound (VM.new []) 1 0 (by decide)).2 (by decide)).1


theorem execute_nil (fuel : Nat) (vm : VM) : execute fuel [] vm = .ok vm := by
  cases fuel <;> rfl

theorem execute_cons (fuel : Nat) (op : Op) (rest : List Op) (vm : VM) :
    execute (fuel + 1) (op :: rest) vm =
      match execute_op fuel op vm with
      | .ok vm' => execute fuel rest vm'
      | r => r := rfl

theorem execute_op_loop_zero (body : List Op) (vm : VM) :
    execute_op 0 (.loop body) vm =
      if vm.tape vm.pointer = 0 then .ok vm else .noFuel := rfl

theorem execute_op_loop_succ (f : Nat) (body : List Op) (vm : VM) :
    execute_op (f + 1) (.loop body) vm =
      if vm.tape vm.pointer = 0 then .ok vm
      else
        match execute f body vm with
        | .ok vm' => execute_op f (.loop body) vm'
        | r => r := rfl

theorem execute_op_listen (fuel : Nat) (vm : VM) :
    execute_op fuel .listen vm = net_listen vm := by
  cases fuel <;> rfl

theorem execute_op_connect (fuel : Nat) (vm : VM) :
    execute_op fuel .connect vm = net_connect vm := by
  cases fuel <;> rfl

theorem execute_op_receive (fuel : Nat) (vm : VM) :
    execute_op fuel .receive vm = net_receive vm := by
  cases fuel <;> rfl

theorem execute_op_send (fuel : Nat) (vm : VM) :
    execute_op fuel .send vm = net_send vm := by
  cases fuel <;> rfl

theorem loopRun_of_execute_op {body : List Op} :
    ∀ fuel (vm vmf : VM), execute_op fuel (.loop body) vm = .ok vmf →
      LoopRun body vm vmf ∧ vmf.tape vmf.pointer = 0 := by
  intro fuel
  induction fuel with
  | zero =>
    intro vm vmf h
    rw [execute_op_loop_zero] at h
    by_cases hc : vm.tape vm.pointer = 0
    · rw [if_pos hc] at h
      injection h with h'
      subst h'
      exact ⟨LoopRun.done vm hc, hc⟩
    · rw [if_neg hc] at h
      exact Res.noConfusion h
  | succ f ih =>
    intro vm vmf h
    rw [execute_op_loop_succ] at h
    by_cases hc : vm.tape vm.pointer = 0
    · rw [if_pos hc] at h
      injection h with h'
      subst h'
      exact ⟨LoopRun.done vm hc, hc⟩
    · rw [if_neg hc] at h
      cases hb : execute f body vm with
      | ok vm' =>
        rw [hb] at h
        obtain ⟨hrun, hzero⟩ := ih vm' vmf h
        exact ⟨LoopRun.step vm vm' vmf f hc hb hrun, hzero⟩
      | err e evm =>
        rw [hb] at h
        exact Res.noConfusion h
      | crash =>
        rw [hb] at h
        exact Res.noConfusion h
      | noFuel =>
        rw [hb] at h
        exact Res.noConfusion h

/-- C2: a `Loop(body)` tests the cell at the current pointer before every
iteration, including the first: a zero test returns at once with the state
unchanged and the body never executed, a nonzero test runs the whole body to
completion before the next test, and a successfully terminating loop ends
exactly at a state whose test reads zero (`LoopRun` forces every
intermediate test to be nonzero and the final one to be zero). -/
theorem C2_loop_checks_cell_each_iteration (body : List Op) (vm : VM) :
    (vm.tape vm.pointer = 0 → ∀ fuel, execute_op fuel (.loop body) vm = .ok vm) ∧
    (∀ fuel vmf, execute_op fuel (.loop body) vm = .ok vmf →
      LoopRun body vm vmf ∧ vmf.tape vmf.pointer = 0) := by
  constructor
  · intro h fuel
    cases fuel with
    | zero => rw [execute_op_loop_zero, if_pos h]
    | succ f => rw [execute_op_loop_succ, if_pos h]
  · intro fuel vmf h
    exact loopRun_of_execute_op fuel vm vmf h

/-- C2 witness: on a fresh machine the tested cell is zero, so the loop
returns immediately with the machine unchanged and the body unexecuted. -/
theorem C2_loop_checks_cell_each_iteration_witness :
    (VM.new []).tape (VM.new []).pointer = 0 ∧
    execute_op 5 (.loop [.decrement 1]) (VM.new []) = .ok (VM.new []) :=
  ⟨rfl, (C2_loop_checks_cell_each_iteration [.decrement 1] (VM.new [])).1 rfl 5⟩

/-- C3: parsing `++++++++[>++++++++<-]>.` and executing it on a freshly
constructed machine (zeroed tape, pointer 0, any stdin) succeeds and writes
exactly the single byte 64 to the output stream. -/
theorem C3_end_to_end (stdin : List Nat) : run_output c3src stdin 100 = some [64] := by
  have hp : parse c3src = .ok [.increment 8,
      .loop [.moveRight 1, .increment 8, .moveLeft 1, .decrement 1], .moveRight 1, .output] := by
    simp [parse, parseAux, scan_match, count_consecutive, c3src]
  simp only [run_output, hp]
  simp [execute, execute_op, set_cell, VM.new, USIZE, TAPE_SIZE, usize_sub]

theorem count_consecutive_replicate_append (n : Nat) (t : Char) (rest : List Char)
    (h : rest.head? ≠ some t) :
    count_consecutive (List.replicate n t ++ rest) t = n := by
  induction n with
  | zero =>
    simp only [List.replicate_zero, List.nil_append, count_consecutive]
    cases rest with
    | nil => rfl
    | cons c cs =>
      simp only [List.head?_cons] at h
      have hc : (c == t) = false := by
        rw [beq_eq_false_iff_ne]
        intro hct
        exact h (by rw [hct])
      simp [List.takeWhile_cons, hc]
  | succ m ih =>
    simp only [List.replicate_succ, List.cons_append, count_consecutive, List.takeWhile_cons,
      beq_self_eq_true, if_true, List.length_cons]
    simp only [count_consecutive] at ih
    omega

theorem replicate_append_drop (n : Nat) (t : Char) (rest : List Char) :
    (List.replicate n t ++ rest).drop n = rest := by
  have h := List.drop_left (List.replicate n t) rest
  rwa [List.length_replicate] at h

theorem parseAux_run_moveRight (n : Nat) (hn : 1 ≤ n) (rest : List Char)
    (hr : rest.head? ≠ some '>') (i : Nat) :
    parseAux (List.replicate n '>' ++ rest) i =
      match parseAux rest (i + n) with
      | .ok ops => .ok (.moveRight n :: ops)
      | .error e => .error e := by
  obtain ⟨m, rfl⟩ : ∃ m, n = m + 1 := ⟨n - 1, by omega⟩
  have hcount := count_consecutive_replicate_append (m + 1) '>' rest hr
  have hdrop := replicate_append_drop (m + 1) '>' rest
  rw [List.replicate_succ, List.cons_append] at *
  simp only [parseAux]
  simp only [dite_true, hcount, hdrop]

theorem parseAux_run_moveLeft (n : Nat) (hn : 1 ≤ n) (rest : List Char)
    (hr : rest.head? ≠ some '<') (i : Nat) :
    parseAux (List.replicate n '<' ++ rest) i =
      match parseAux rest (i + n) with
      | .ok ops => .ok (.moveLeft n :: ops)
      | .error e => .error e := by
  obtain ⟨m, rfl⟩ : ∃ m, n = m + 1 := ⟨n - 1, by omega⟩
  have hcount := count_consecutive_replicate_append (m + 1) '<' rest hr
  have hdrop := replicate_append_drop (m + 1) '<' rest
  rw [List.replicate_succ, List.cons_append] at *
  simp only [parseAux]
  rw [dif_neg (by decide)]
  simp only [dite_true, hcount, hdrop]

theorem parseAux_run_increment (n : Nat) (hn : 1 ≤ n) (rest : List Char)
    (hr : rest.head? ≠ some '+') (i : Nat) :
    parseAux (List.replicate n '+' ++ rest) i =
      match parseAux rest (i + n) with
      | .ok ops => .ok (.increment (n % 256) :: ops)
      | .error e => .error e := by
  obtain ⟨m, rfl⟩ : ∃ m, n = m + 1 := ⟨n - 1, by omega⟩
  have hcount := count_consecutive_replicate_append (m + 1) '+' rest hr
  have hdrop := replicate_append_drop (m + 1) '+' rest
  rw [List.replicate_succ, List.cons_append] at *
  simp only [parseAux]
  rw [dif_neg (by decide), dif_neg (by decide)]
  simp only [dite_true, hcount, hdrop]

theorem parseAux_run_decrement (n : Nat) (hn : 1 ≤ n) (rest : List Char)
    (hr : rest.head? ≠ some '-') (i : Nat) :
    parseAux (List.replicate n '-' ++ rest) i =
      match parseAux rest (i + n) with
      | .ok ops => .ok (.decrement (n % 256) :: ops)
      | .error e => .error e := by
  obtain ⟨m, rfl⟩ : ∃ m, n = m + 1 := ⟨n - 1, by omega⟩
  have hcount := count_consecutive_replicate_append (m + 1) '-' rest hr
  have hdrop := replicate_append_drop (m + 1) '-' rest
  rw [List.replicate_succ, List.cons_append] at *
  simp only [parseAux]
  rw [dif_neg (by decide), dif_neg (by decide), dif_neg (by decide)]
  simp only [dite_true, hcount, hdrop]

/-- C4: a maximal run of `N ≥ 1` identical movement or arithmetic characters
parses to exactly one counted operation — `MoveRight(N)`/`MoveLeft(N)` for
movement, `Increment(N % 256)`/`Decrement(N % 256)` for arithmetic — both
when the run is the whole text and when it is followed by any text not
extending the run; in particular a run of 256 `+` parses to `Increment(0)`. -/
theorem C4_run_length (n : Nat) (hn : 1 ≤ n) :
    parse (List.replicate n '>') = .ok [.moveRight n] ∧
    parse (List.replicate n '<') = .ok [.moveLeft n] ∧
    parse (List.replicate n '+') = .ok [.increment (n % 256)] ∧
    parse (List.replicate n '-') = .ok [.decrement (n % 256)] ∧
    (∀ rest ops, rest.head? ≠ some '+' → parseAux rest n = .ok ops →
      parse (List.replicate n '+' ++ rest) = .ok (.increment (n % 256) :: ops)) ∧
    parse (List.replicate 256 '+') = .ok [.increment 0] := by
  have hnil : ∀ t : Char, (([] : List Char)).head? ≠ some t := by
    intro t
    simp
  refine ⟨?_, ?_, ?_, ?_, ?_, ?_⟩
  · rw [parse, ← List.append_nil (List.replicate n '>'),
      parseAux_run_moveRight n hn [] (hnil '>') 0]
    simp [parseAux]
  · rw [parse, ← List.append_nil (List.replicate n '<'),
      parseAux_run_moveLeft n hn [] (hnil '<') 0]
    simp [parseAux]
  · rw [parse, ← List.append_nil (List.replicate n '+'),
      parseAux_run_increment n hn [] (hnil '+') 0]
    simp [parseAux]
  · rw [parse, ← List.append_nil (List.replicate n '-'),
      parseAux_run_decrement n hn [] (hnil '-') 0]
    simp [parseAux]
  · intro rest ops hr hok
    rw [parse, parseAux_run_increment n hn rest hr 0]
    rw [Nat.zero_add, hok]
  · rw [parse, ← List.append_nil (List.replicate 256 '+'),
      parseAux_run_increment 256 (by omega) [] (hnil '+') 0]
    simp [parseAux]

/-- C4 witness: a run of 256 `+` followed by `.` parses to `Increment(0)`
then `Output`, and a lone run of three `>` parses to `MoveRight(3)`. -/
theorem C4_run_length_witness :
    (1 : Nat) ≤ 256 ∧ (['.'] : List Char).head? ≠ some '+' ∧
    parseAux ['.'] 256 = .ok [.output] ∧
    parse (List.replicate 256 '+' ++ ['.']) = .ok [.increment 0, .output] ∧
    parse (List.replicate 3 '>') = .ok [.moveRight 3] := by
  have h1 : (1 : Nat) ≤ 256 := by omega
  have h2 : (['.'] : List Char).head? ≠ some '+' := by simp
  have h3 : parseAux ['.'] 256 = .ok [.output] := by simp [parseAux]
  refine ⟨h1, h2, h3, ?_, ?_⟩
  · have h4 := (C4_run_length 256 h1).2.2.2.2.1 ['.'] [.output] h2 h3
    have h5 : (256 : Nat) % 256 = 0 := by norm_num
    rw [h5] at h4
    exact h4
  · exact (C4_run_length 3 (by omega)).1

/-- C6: `Send` with no active connection changes no state and performs no
I/O (silent no-op); with an active connection it writes the byte at the
current cell to the connection and flushes; a write failure is propagated as
a fatal runtime error, which aborts execution (the remaining operations are
not run). -/
theorem C6_send_failure_fatal (vm : VM) :
    (vm.connection = false → net_send vm = .ok vm) ∧
    (vm.connection = true → vm.sendOk = true → vm.flushOk = true →
      net_send vm = .ok { vm with sent := vm.sent ++ [vm.tape vm.pointer] }) ∧
    (vm.connection = true → vm.sendOk = false →
      net_send vm = .err .networkError vm ∧
      ∀ fuel rest, execute (fuel + 1) (.send :: rest) vm = .err .networkError vm) := by
  refine ⟨?_, ?_, ?_⟩
  · intro h
    simp [net_send, h]
  · intro h1 h2 h3
    simp [net_send, h1, h2, h3]
  · intro h1 h2
    have hs : net_send vm = .err .networkError vm := by
      simp [net_send, h1, h2]
    refine ⟨hs, ?_⟩
    intro fuel rest
    rw [execute_cons, execute_op_send, hs]

/-- C6 witness: a successful send appends the cell byte to the connection
stream, and a failing write aborts with a network error. -/
theorem C6_send_failure_fatal_witness :
    (vmConn.connection = true ∧ vmConn.sendOk = true ∧ vmConn.flushOk = true ∧
      net_send vmConn = .ok { vmConn with sent := vmConn.sent ++ [vmConn.tape vmConn.pointer] }) ∧
    (({ vmConn with sendOk := false }).connection = true ∧
      ({ vmConn with sendOk := false }).sendOk = false ∧
      net_send { vmConn with sendOk := false } =
        .err .networkError { vmConn with sendOk := false }) :=
  ⟨⟨rfl, rfl, rfl, (C6_send_failure_fatal vmConn).2.1 rfl rfl rfl⟩,
   ⟨rfl, rfl, ((C6_send_failure_fatal { vmConn with sendOk := false }).2.2 rfl rfl).1⟩⟩

/-- C7: `Receive` always returns success, never a fatal error: with no
connection the current cell is set to 0; with a connection, a closed stream
(`Ok(0)`) or a read error set the cell to 0 and execution continues, and a
read byte is stored in the current cell. -/
theorem C7_receive_never_fatal (vm : VM) :
    (∃ vm', net_receive vm = .ok vm') ∧
    (vm.connection = false → net_receive vm = .ok (set_cell vm 0)) ∧
    (vm.connection = true → vm.recvEvs.headD .closed = .closed →
      net_receive vm = .ok (set_cell { vm with recvEvs := vm.recvEvs.tail } 0)) ∧
    (∀ b, vm.connection = true → vm.recvEvs.headD .closed = .byte b →
      net_receive vm = .ok (set_cell { vm with recvEvs := vm.recvEvs.tail } (b % 256))) ∧
    (vm.connection = true → vm.recvEvs.headD .closed = .readErr →
      net_receive vm = .ok (set_cell { vm with recvEvs := vm.recvEvs.tail } 0)) := by
  have hno : vm.connection = false → net_receive vm = .ok (set_cell vm 0) := by
    intro h
    simp only [net_receive, h]
    simp
  have hclosed : vm.connection = true → vm.recvEvs.headD .closed = .closed →
      net_receive vm = .ok (set_cell { vm with recvEvs := vm.recvEvs.tail } 0) := by
    intro h he
    simp only [net_receive, h, he]
    simp
  have hbyte : ∀ b, vm.connection = true → vm.recvEvs.headD .closed = .byte b →
      net_receive vm = .ok (set_cell { vm with recvEvs := vm.recvEvs.tail } (b % 256)) := by
    intro b h he
    simp only [net_receive, h, he]
    simp
  have herr : vm.connection = true → vm.recvEvs.headD .closed = .readErr →
      net_receive vm = .ok (set_cell { vm with recvEvs := vm.recvEvs.tail } 0) := by
    intro h he
    simp only [net_receive, h, he]
    simp
  refine ⟨?_, hno, hclosed, hbyte, herr⟩
  by_cases h : vm.connection = true
  · cases he : vm.recvEvs.headD .closed with
    | closed => exact ⟨_, hclosed h he⟩
    | byte b => exact ⟨_, hbyte b h he⟩
    | readErr => exact ⟨_, herr h he⟩
  · have h2 : vm.connection = false := by
      cases hx : vm.connection
      · rfl
      · exact absurd hx h
    exact ⟨_, hno h2⟩

/-- C7 witness: with a connection holding one pending byte 65, receive
stores 65 in the current cell and succeeds. -/
theorem C7_receive_never_fatal_witness :
    vmRecv.connection = true ∧ vmRecv.recvEvs.headD .closed = .byte 65 ∧
    net_receive vmRecv =
      .ok (set_cell { vmRecv with recvEvs := vmRecv.recvEvs.tail } (65 % 256)) :=
  ⟨rfl, rfl, (C7_receive_never_fatal vmRecv).2.2.2.1 65 rfl rfl⟩

theorem read_address_from_tape_some (vm : VM) (hp : vm.pointer + 5 < TAPE_SIZE) :
    read_address_from_tape vm =
      some (vm.tape vm.pointer, vm.tape (vm.pointer + 1),
        vm.tape (vm.pointer + 2), vm.tape (vm.pointer + 3)) := by
  simp only [TAPE_SIZE] at hp
  simp only [read_address_from_tape, tape_get, TAPE_SIZE]
  rw [if_pos (by omega), if_pos (by omega), if_pos (by omega), if_pos (by omega)]

theorem read_port_from_tape_some (vm : VM) (hp : vm.pointer + 5 < TAPE_SIZE) :
    read_port_from_tape vm =
      some (vm.tape (vm.pointer + 4) * 256 + vm.tape (vm.pointer + 5)) := by
  simp only [TAPE_SIZE] at hp
  simp only [read_port_from_tape, tape_get, TAPE_SIZE]
  rw [if_pos (by omega), if_pos (by omega)]

/-- C8: a Connect executed with an active connection closes it (slot set
absent) and opens nothing else; `%%` parses to two Connects, and executing
the two Connects from a connectionless state ends with no open connection —
the single `connection` slot of the machine also makes "at most one
connection at any time" structural. -/
theorem C8_double_connect_no_connection (vm : VM) :
    (vm.connection = true → net_connect vm = .ok { vm with connection := false }) ∧
    parse ['%', '%'] = .ok [.connect, .connect] ∧
    (vm.connection = false → vm.pointer + 5 < TAPE_SIZE → vm.connectOk = true →
      ∀ fuel, execute (fuel + 2) [.connect, .connect] vm =
        .ok { vm with connection := false }) := by
  refine ⟨?_, ?_, ?_⟩
  · intro h
    simp [net_connect, h]
  · simp [parse, parseAux]
  · intro h1 h2 h3 fuel
    have haddr := read_address_from_tape_some vm h2
    have hport := read_port_from_tape_some vm h2
    have hc1 : net_connect vm = .ok { vm with connection := true } := by
      simp [net_connect, h1, haddr, hport, h3]
    have hc2 : net_connect { vm with connection := true } =
        .ok { { vm with connection := true } with connection := false } := by
      simp [net_connect]
    show execute (fuel + 1 + 1) (Op.connect :: [Op.connect]) vm =
      .ok { vm with connection := false }
    rw [execute_cons, execute_op_connect, hc1]
    show execute (fuel + 1) (Op.connect :: []) { vm with connection := true } =
      .ok { vm with connection := false }
    rw [execute_cons, execute_op_connect, hc2]
    show execute fuel [] { vm with connection := false } =
      .ok { vm with connection := false }
    exact execute_nil fuel _

/-- C8 witness: from a fresh machine (no connection, pointer 0, world
letting `connect` succeed), `%%` executes to a machine with no open
connection; and a Connect on a connected machine closes the connection. -/
theorem C8_double_connect_no_connection_witness :
    ((VM.new []).connection = false ∧ (VM.new []).pointer + 5 < TAPE_SIZE ∧
      (VM.new []).connectOk = true ∧
      execute 7 [.connect, .connect] (VM.new []) = .ok { VM.new [] with connection := false }) ∧
    (vmConn.connection = true ∧ net_connect vmConn = .ok { vmConn with connection := false }) :=
  ⟨⟨rfl, by decide, rfl,
    (C8_double_connect_no_connection (VM.new [])).2.2 rfl (by decide) rfl 5⟩,
   ⟨rfl, (C8_double_connect_no_connection vmConn).1 rfl⟩⟩

/-- C9 counterexample: the pointer value 29999 lies in `[0, 30000)` and the
connection slot is empty, yet Connect decodes no port at all — the tape
read at index 30003 is out of bounds, so the machine panics instead of
decoding an address. -/
theorem C9_address_decoding_cex :
    vmEdge.pointer < TAPE_SIZE ∧ vmEdge.connection = false ∧
    read_port_from_tape vmEdge = none ∧ net_connect vmEdge = .crash := by
  exact ⟨by decide, rfl, rfl, rfl⟩

/-- C9 (amended): for every pointer with `pointer ≤ 29994` (so that all six
reads are in bounds; larger valid pointers panic instead — see the
counterexample), Listen and Connect decode the target from the six cells at
the pointer: `tape[p] … tape[p+3]` are the IPv4 octets in network
(big-endian) order and the port is `tape[p+4] * 256 + tape[p+5]`; with the
corresponding slot empty the operation then reaches its bind/connect step
rather than the panic branch. -/
theorem C9_address_decoding (vm : VM) (hp : vm.pointer ≤ 29994) :
    read_address_from_tape vm =
      some (vm.tape vm.pointer, vm.tape (vm.pointer + 1),
        vm.tape (vm.pointer + 2), vm.tape (vm.pointer + 3)) ∧
    read_port_from_tape vm =
      some (vm.tape (vm.pointer + 4) * 256 + vm.tape (vm.pointer + 5)) ∧
    (vm.listener = false → net_listen vm ≠ .crash) ∧
    (vm.connection = false → net_connect vm ≠ .crash) := by
  have hp5 : vm.pointer + 5 < TAPE_SIZE := by
    simp only [TAPE_SIZE]
    omega
  have haddr := read_address_from_tape_some vm hp5
  have hport := read_port_from_tape_some vm hp5
  refine ⟨haddr, hport, ?_, ?_⟩
  · intro hl
    by_cases hb : vm.bindOk = true
    · simp [net_listen, hl, haddr, hport, hb]
    · simp [net_listen, hl, haddr, hport, hb]
  · intro hc
    by_cases hb : vm.connectOk = true
    · simp [net_connect, hc, haddr, hport, hb]
    · simp [net_connect, hc, haddr, hport, hb]

/-- C9 witness: on a fresh machine (pointer 0, zeroed tape) the decoded
address is 0.0.0.0 and the decoded port is 0. -/
theorem C9_address_decoding_witness :
    (VM.new []).pointer ≤ 29994 ∧
    read_port_from_tape (VM.new []) =
      some ((VM.new []).tape ((VM.new []).pointer + 4) * 256 +
        (VM.new []).tape ((VM.new []).pointer + 5)) :=
  ⟨by decide, (C9_address_decoding (VM.new []) (by decide)).2.1⟩

/-- C10: the six tape reads of Listen/Connect use the raw indices
`pointer` … `pointer + 5` with no tape-length wraparound, so they are all in
bounds exactly under `pointer ≤ 29994`; for every pointer in
`[29995, 29999]` — a valid pointer by the pointer invariant — the port read
reaches an index `≥ 30000`, and Listen/Connect with the corresponding slot
empty take the out-of-bounds (panic) branch of tape indexing. -/
theorem C10_reads_out_of_bounds (vm : VM) :
    (vm.pointer ≤ 29994 →
      (∃ q, read_address_from_tape vm = some q) ∧
      (∃ p, read_port_from_tape vm = some p)) ∧
    (29995 ≤ vm.pointer → vm.pointer ≤ 29999 →
      read_port_from_tape vm = none ∧
      (vm.listener = false → net_listen vm = .crash) ∧
      (vm.connection = false → net_connect vm = .crash)) := by
  constructor
  · intro hp
    have hp5 : vm.pointer + 5 < TAPE_SIZE := by
      simp only [TAPE_SIZE]
      omega
    exact ⟨⟨_, read_address_from_tape_some vm hp5⟩, ⟨_, read_port_from_tape_some vm hp5⟩⟩
  · intro hlo hhi
    have h5 : ¬ (vm.pointer + 5 < TAPE_SIZE) := by
      simp only [TAPE_SIZE]
      omega
    have hport : read_port_from_tape vm = none := by
      by_cases h4 : vm.pointer + 4 < TAPE_SIZE
      · simp [read_port_from_tape, tape_get, h4, h5]
      · simp [read_port_from_tape, tape_get, h4, h5]
    refine ⟨hport, ?_, ?_⟩
    · intro hl
      cases ha : read_address_from_tape vm with
      | none => simp [net_listen, hl, ha]
      | some q => simp [net_listen, hl, ha, hport]
    · intro hc
      cases ha : read_address_from_tape vm with
      | none => simp [net_connect, hc, ha]
      | some q => simp [net_connect, hc, ha, hport]

/-- C10 witness: at pointer 29995 (slot empty) both Listen and Connect
panic, while at pointer 0 both reads are in bounds. -/
theorem C10_reads_out_of_bounds_witness :
    (29995 ≤ vmEdge2.pointer ∧ vmEdge2.pointer ≤ 29999 ∧
      read_port_from_tape vmEdge2 = none ∧
      vmEdge2.listener = false ∧ net_listen vmEdge2 = .crash ∧
      vmEdge2.connection = false ∧ net_connect vmEdge2 = .crash) ∧
    ((VM.new []).pointer ≤ 29994 ∧ ∃ p, read_port_from_tape (VM.new []) = some p) := by
  have h := (C10_reads_out_of_bounds vmEdge2).2 (by decide) (by decide)
  have h2 := (C10_reads_out_of_bounds (VM.new [])).1 (by decide)
  exact ⟨⟨by decide, by decide, h.1, rfl, h.2.1 rfl, rfl, h.2.2 rfl⟩, ⟨by decide, h2.2⟩⟩

theorem depthOf_nil : depthOf [] = 0 := rfl

theorem depthOf_cons (c : Char) (l : List Char) :
    depthOf (c :: l) = delta c + depthOf l := by
  simp [depthOf]

theorem depthOf_append (a b : List Char) :
    depthOf (a ++ b) = depthOf a + depthOf b := by
  simp [depthOf]

theorem delta_step (c : Char) (d : Nat) (hd : 0 < d) :
    ((if c = '[' then d + 1 else if c = ']' then d - 1 else d : Nat) : Int) =
      (d : Int) + delta c := by
  by_cases h1 : c = '['
  · simp [h1, delta]
  · by_cases h2 : c = ']'
    · subst h2
      rw [if_neg h1, if_pos rfl]
      have hdel : delta ']' = -1 := by decide
      rw [hdel]
      omega
    · simp [h1, h2, delta]

theorem scan_match_some : ∀ (l : List Char) (d k : Nat), 0 < d →
    scan_match l d = some k →
    k < l.length ∧ l.get? k = some ']' ∧
    (d : Int) + depthOf (l.take (k + 1)) = 0 ∧
    ∀ m, m ≤ k → 0 < (d : Int) + depthOf (l.take m) := by
  intro l
  induction l with
  | nil =>
    intro d k hd h
    exact Option.noConfusion h
  | cons c rest ih =>
    intro d k hd h
    simp only [scan_match] at h
    by_cases hz : (if c = '[' then d + 1 else if c = ']' then d - 1 else d) = 0
    · rw [if_pos hz] at h
      injection h with h'
      subst h'
      have hc : c = ']' ∧ d = 1 := by
        by_cases h1 : c = '['
        · rw [if_pos h1] at hz
          omega
        · by_cases h2 : c = ']'
          · rw [if_neg h1, if_pos h2] at hz
            exact ⟨h2, by omega⟩
          · rw [if_neg h1, if_neg h2] at hz
            omega
      obtain ⟨hc1, hc2⟩ := hc
      subst hc1
      subst hc2
      refine ⟨by simp, by simp, ?_, ?_⟩
      · simp [List.take_succ_cons, depthOf_cons, depthOf_nil, delta]
      · intro m hm
        have hm0 : m = 0 := Nat.le_zero.mp hm
        subst hm0
        simp only [List.take_zero, depthOf_nil]
        omega
    · rw [if_neg hz] at h
      cases hs : scan_match rest (if c = '[' then d + 1 else if c = ']' then d - 1 else d) with
      | none =>
        rw [hs] at h
        exact Option.noConfusion h
      | some q =>
        rw [hs] at h
        injection h with h'
        subst h'
        have hd' : 0 < (if c = '[' then d + 1 else if c = ']' then d - 1 else d) := by
          omega
        obtain ⟨hlen, hget, hdep, hmin⟩ := ih _ q hd' hs
        have hstep := delta_step c d hd
        refine ⟨by simp; omega, by simpa using hget, ?_, ?_⟩
        · rw [List.take_succ_cons, depthOf_cons]
          omega
        · intro m hm
          cases m with
          | zero =>
            simp only [List.take_zero, depthOf_nil]
            omega
          | succ m' =>
            rw [List.take_succ_cons, depthOf_cons]
            have := hmin m' (by omega)
            omega

theorem scan_match_none : ∀ (l : List Char) (d : Nat), 0 < d →
    scan_match l d = none →
    ∀ m, m ≤ l.length → 0 < (d : Int) + depthOf (l.take m) := by
  intro l
  induction l with
  | nil =>
    intro d hd _ m hm
    simp only [List.take_nil, depthOf_nil]
    omega
  | cons c rest ih =>
    intro d hd h m hm
    simp only [scan_match] at h
    by_cases hz : (if c = '[' then d + 1 else if c = ']' then d - 1 else d) = 0
    · rw [if_pos hz] at h
      exact Option.noConfusion h
    · rw [if_neg hz] at h
      cases hs : scan_match rest (if c = '[' then d + 1 else if c = ']' then d - 1 else d) with
      | some q =>
        rw [hs] at h
        exact Option.noConfusion h
      | none =>
        have hd' : 0 < (if c = '[' then d + 1 else if c = ']' then d - 1 else d) := by
          omega
        have hstep := delta_step c d hd
        cases m with
        | zero =>
          simp only [List.take_zero, depthOf_nil]
          omega
        | succ m' =>
          rw [List.take_succ_cons, depthOf_cons]
          have := ih _ hd' hs m' (by simpa using hm)
          omega

theorem depthOf_neutral {seg : List Char} (hseg : ∀ c ∈ seg, c ≠ '[' ∧ c ≠ ']') :
    depthOf seg = 0 := by
  induction seg with
  | nil => rfl
  | cons c rest ih =>
    rw [depthOf_cons]
    have hc := hseg c (by simp)
    have hδ : delta c = 0 := by
      simp [delta, hc.1, hc.2]
    rw [hδ, ih (fun x hx => hseg x (by simp [hx]))]
    norm_num

theorem depthOf_take_append_neutral {seg tail : List Char}
    (hseg : ∀ c ∈ seg, c ≠ '[' ∧ c ≠ ']') (m : Nat) :
    depthOf ((seg ++ tail).take m) = depthOf (tail.take (m - seg.length)) := by
  rw [List.take_append_eq_append_take, depthOf_append,
    depthOf_neutral (fun c hc => hseg c (List.take_subset _ _ hc))]
  norm_num

theorem badClose_append_neutral {seg tail : List Char}
    (hseg : ∀ c ∈ seg, c ≠ '[' ∧ c ≠ ']') (j : Nat) :
    BadClose (seg ++ tail) j ↔ seg.length ≤ j ∧ BadClose tail (j - seg.length) := by
  unfold BadClose
  constructor
  · rintro ⟨hg, hd⟩
    by_cases hj : j < seg.length
    · rw [List.get?_append hj] at hg
      exact absurd rfl (hseg ']' (List.get?_mem hg)).2
    · have hle := Nat.le_of_not_lt hj
      rw [List.get?_append_right hle] at hg
      rw [depthOf_take_append_neutral hseg] at hd
      exact ⟨hle, hg, hd⟩
  · rintro ⟨hle, hg, hd⟩
    rw [List.get?_append_right hle, depthOf_take_append_neutral hseg]
    exact ⟨hg, hd⟩

theorem firstBadClose_append_neutral {seg tail : List Char}
    (hseg : ∀ c ∈ seg, c ≠ '[' ∧ c ≠ ']') (j : Nat) :
    FirstBadClose (seg ++ tail) j ↔ seg.length ≤ j ∧ FirstBadClose tail (j - seg.length) := by
  unfold FirstBadClose
  constructor
  · rintro ⟨hb, hmin⟩
    rw [badClose_append_neutral hseg] at hb
    obtain ⟨hle, hb2⟩ := hb
    refine ⟨hle, hb2, ?_⟩
    intro m hm hbad
    have hb3 : BadClose (seg ++ tail) (seg.length + m) := by
      rw [badClose_append_neutral hseg]
      refine ⟨by omega, ?_⟩
      have : seg.length + m - seg.length = m := by omega
      rwa [this]
    exact hmin (seg.length + m) (by omega) hb3
  · rintro ⟨hle, hb2, hmin⟩
    refine ⟨(badClose_append_neutral hseg j).2 ⟨hle, hb2⟩, ?_⟩
    intro m hm hbad
    rw [badClose_append_neutral hseg] at hbad
    obtain ⟨hle2, hbad2⟩ := hbad
    exact hmin (m - seg.length) (by omega) hbad2

theorem noBadClose_append_neutral {seg tail : List Char}
    (hseg : ∀ c ∈ seg, c ≠ '[' ∧ c ≠ ']') :
    NoBadClose (seg ++ tail) ↔ NoBadClose tail := by
  unfold NoBadClose
  constructor
  · intro h j hj hbad
    have hb3 : BadClose (seg ++ tail) (seg.length + j) := by
      rw [badClose_append_neutral hseg]
      refine ⟨by omega, ?_⟩
      have : seg.length + j - seg.length = j := by omega
      rwa [this]
    exact h (seg.length + j) (by simp [List.length_append]; omega) hb3
  · intro h j hj hbad
    rw [badClose_append_neutral hseg] at hbad
    obtain ⟨hle, hbad2⟩ := hbad
    simp only [List.length_append] at hj
    exact h (j - seg.length) (by omega) hbad2

theorem topUnmatchedOpen_append_neutral {seg tail : List Char}
    (hseg : ∀ c ∈ seg, c ≠ '[' ∧ c ≠ ']') (j : Nat) :
    TopUnmatchedOpen (seg ++ tail) j ↔
      seg.length ≤ j ∧ TopUnmatchedOpen tail (j - seg.length) := by
  unfold TopUnmatchedOpen
  constructor
  · rintro ⟨hg, hd, hpos⟩
    by_cases hj : j < seg.length
    · rw [List.get?_append hj] at hg
      exact absurd rfl (hseg '[' (List.get?_mem hg)).1
    · have hle := Nat.le_of_not_lt hj
      rw [List.get?_append_right hle] at hg
      rw [depthOf_take_append_neutral hseg] at hd
      refine ⟨hle, hg, hd, ?_⟩
      intro k hk hjk
      have hp := hpos (seg.length + k) (by simp [List.length_append]; omega) (by omega)
      rw [depthOf_take_append_neutral hseg] at hp
      have : seg.length + k - seg.length = k := by omega
      rwa [this] at hp
  · rintro ⟨hle, hg, hd, hpos⟩
    refine ⟨by rw [List.get?_append_right hle]; exact hg,
      by rw [depthOf_take_append_neutral hseg]; exact hd, ?_⟩
    intro k hk hjk
    rw [depthOf_take_append_neutral hseg]
    simp only [List.length_append] at hk
    exact hpos (k - seg.length) (by omega) (by omega)

theorem balancedText_append_neutral {seg tail : List Char}
    (hseg : ∀ c ∈ seg, c ≠ '[' ∧ c ≠ ']') :
    BalancedText (seg ++ tail) → BalancedText tail := by
  rintro ⟨hpre, htot⟩
  constructor
  · intro k hk
    have hp := hpre (seg.length + k) (by simp [List.length_append]; omega)
    rw [depthOf_take_append_neutral hseg] at hp
    have : seg.length + k - seg.length = k := by omega
    rwa [this] at hp
  · rw [depthOf_append, depthOf_neutral hseg] at htot
    omega

theorem master_step_neutral {seg tail : List Char} {i : Nat}
    (hseg : ∀ c ∈ seg, c ≠ '[' ∧ c ≠ ']')
    (hok : ∀ ops, parseAux tail (i + seg.length) = .ok ops →
      ∃ ops2, parseAux (seg ++ tail) i = .ok ops2)
    (herr : ∀ e, parseAux tail (i + seg.length) = .error e →
      parseAux (seg ++ tail) i = .error e)
    (ih1 : BalancedText tail → ∃ ops, parseAux tail (i + seg.length) = .ok ops)
    (ih2 : ∀ j, FirstBadClose tail j →
      parseAux tail (i + seg.length) = .error (.unmatchedCloseBracket (i + seg.length + j)))
    (ih3 : ∀ j, NoBadClose tail → TopUnmatchedOpen tail j →
      parseAux tail (i + seg.length) = .error (.unmatchedOpenBracket (i + seg.length + j))) :
    (BalancedText (seg ++ tail) → ∃ ops, parseAux (seg ++ tail) i = .ok ops) ∧
    (∀ j, FirstBadClose (seg ++ tail) j →
      parseAux (seg ++ tail) i = .error (.unmatchedCloseBracket (i + j))) ∧
    (∀ j, NoBadClose (seg ++ tail) → TopUnmatchedOpen (seg ++ tail) j →
      parseAux (seg ++ tail) i = .error (.unmatchedOpenBracket (i + j))) := by
  refine ⟨?_, ?_, ?_⟩
  · intro hb
    obtain ⟨ops, hops⟩ := ih1 (balancedText_append_neutral hseg hb)
    exact hok ops hops
  · intro j hj
    rw [firstBadClose_append_neutral hseg] at hj
    obtain ⟨hle, hj2⟩ := hj
    have h2 := ih2 _ hj2
    have heq : i + seg.length + (j - seg.length) = i + j := by omega
    rw [heq] at h2
    exact herr _ h2
  · intro j hnb hj
    rw [topUnmatchedOpen_append_neutral hseg] at hj
    obtain ⟨hle, hj2⟩ := hj
    have hnb2 := (noBadClose_append_neutral hseg).1 hnb
    have h3 := ih3 _ hnb2 hj2
    have heq : i + seg.length + (j - seg.length) = i + j := by omega
    rw [heq] at h3
    exact herr _ h3

theorem depthOf_take_loop_mid {inner tail : List Char} (m : Nat)
    (h1 : 1 ≤ m) (h2 : m ≤ inner.length + 1) :
    depthOf (('[' :: (inner ++ ']' :: tail)).take m) =
      1 + depthOf (inner.take (m - 1)) := by
  obtain ⟨m', rfl⟩ : ∃ m', m = m' + 1 := ⟨m - 1, by omega⟩
  rw [List.take_succ_cons, depthOf_cons, List.take_append_eq_append_take]
  have hz : m' - inner.length = 0 := by omega
  rw [hz, List.take_zero, List.append_nil]
  have hδ : delta '[' = 1 := by decide
  rw [hδ]
  simp

theorem depthOf_take_loop_high {inner tail : List Char} (m : Nat)
    (htot : depthOf inner = 0) (h2 : inner.length + 2 ≤ m) :
    depthOf (('[' :: (inner ++ ']' :: tail)).take m) =
      depthOf (tail.take (m - (inner.length + 2))) := by
  obtain ⟨m', rfl⟩ : ∃ m', m = m' + 1 := ⟨m - 1, by omega⟩
  rw [List.take_succ_cons, depthOf_cons, List.take_append_eq_append_take]
  rw [List.take_of_length_le (by omega)]
  have hz : m' - inner.length = (m' - inner.length - 1) + 1 := by omega
  rw [hz, List.take_succ_cons]
  rw [depthOf_append, depthOf_cons, htot]
  have hδ1 : delta '[' = 1 := by decide
  have hδ2 : delta ']' = -1 := by decide
  rw [hδ1, hδ2]
  have he : m' - inner.length - 1 = m' + 1 - (inner.length + 2) := by omega
  rw [he]
  ring

theorem get?_loop_zero (inner tail : List Char) :
    ('[' :: (inner ++ ']' :: tail)).get? 0 = some '[' := rfl

theorem get?_loop_mid {inner tail : List Char} (j : Nat)
    (h1 : 1 ≤ j) (h2 : j ≤ inner.length) :
    ('[' :: (inner ++ ']' :: tail)).get? j = inner.get? (j - 1) := by
  obtain ⟨j', rfl⟩ : ∃ j', j = j' + 1 := ⟨j - 1, by omega⟩
  show (inner ++ ']' :: tail).get? j' = inner.get? (j' + 1 - 1)
  rw [List.get?_append (by omega)]
  norm_num

theorem get?_loop_close (inner tail : List Char) :
    ('[' :: (inner ++ ']' :: tail)).get? (inner.length + 1) = some ']' := by
  show (inner ++ ']' :: tail).get? inner.length = some ']'
  rw [List.get?_append_right (by omega)]
  simp

theorem get?_loop_high {inner tail : List Char} (j : Nat)
    (h2 : inner.length + 2 ≤ j) :
    ('[' :: (inner ++ ']' :: tail)).get? j = tail.get? (j - (inner.length + 2)) := by
  obtain ⟨j', rfl⟩ : ∃ j', j = j' + 1 := ⟨j - 1, by omega⟩
  show (inner ++ ']' :: tail).get? j' = _
  rw [List.get?_append_right (by omega)]
  have hz : j' - inner.length = (j' - inner.length - 1) + 1 := by omega
  rw [hz]
  show tail.get? (j' - inner.length - 1) = tail.get? (j' + 1 - (inner.length + 2))
  have he : j' - inner.length - 1 = j' + 1 - (inner.length + 2) := by omega
  rw [he]

theorem count_consecutive_cons_pos (t : Char) (rest : List Char) :
    1 ≤ count_consecutive (t :: rest) t := by
  simp [count_consecutive, List.takeWhile_cons]

theorem count_consecutive_le_length (l : List Char) (t : Char) :
    count_consecutive l t ≤ l.length := by
  unfold count_consecutive
  induction l with
  | nil => simp
  | cons c rest ih =>
    cases h : (c == t) with
    | false =>
      rw [List.takeWhile_cons_of_neg (p := fun x => x == t) (l := rest) (by simp [h])]
      simp
    | true =>
      rw [List.takeWhile_cons_of_pos (p := fun x => x == t) (l := rest) h]
      simp only [List.length_cons]
      omega

theorem take_count_eq_takeWhile (l : List Char) (t : Char) :
    l.take (count_consecutive l t) = l.takeWhile (fun c => c == t) := by
  unfold count_consecutive
  induction l with
  | nil => simp
  | cons c rest ih =>
    cases h : (c == t) with
    | false =>
      rw [List.takeWhile_cons_of_neg (p := fun x => x == t) (l := rest) (by simp [h])]
      simp
    | true =>
      rw [List.takeWhile_cons_of_pos (p := fun x => x == t) (l := rest) h,
        List.length_cons, List.take_succ_cons, ih]

theorem mem_take_count_eq {l : List Char} {t x : Char}
    (hx : x ∈ l.take (count_consecutive l t)) : x = t := by
  rw [take_count_eq_takeWhile] at hx
  have h2 := List.mem_takeWhile_imp (p := fun c => c == t) hx
  exact eq_of_beq h2

theorem length_loop_shape (inner tail : List Char) :
    ('[' :: (inner ++ ']' :: tail)).length = inner.length + tail.length + 2 := by
  simp only [List.length_cons, List.length_append]
  omega

theorem badClose_loop {inner tail : List Char}
    (hpre : ∀ m, m ≤ inner.length → 0 ≤ depthOf (inner.take m))
    (htot : depthOf inner = 0) (j : Nat) :
    BadClose ('[' :: (inner ++ ']' :: tail)) j ↔
      inner.length + 2 ≤ j ∧ BadClose tail (j - (inner.length + 2)) := by
  unfold BadClose
  constructor
  · rintro ⟨hg, hd⟩
    rcases Nat.lt_or_ge j (inner.length + 2) with hj | hj
    · exfalso
      rcases Nat.eq_zero_or_pos j with hj0 | hjpos
      · subst hj0
        rw [get?_loop_zero] at hg
        simp at hg
      · rcases Nat.lt_or_ge j (inner.length + 1) with hjk | hjk1
        · rw [depthOf_take_loop_mid j hjpos (by omega)] at hd
          have := hpre (j - 1) (by omega)
          omega
        · have hj1 : j = inner.length + 1 := by omega
          subst hj1
          rw [depthOf_take_loop_mid _ (by omega) (by omega)] at hd
          rw [Nat.add_sub_cancel] at hd
          rw [List.take_of_length_le (le_refl _), htot] at hd
          omega
    · rw [get?_loop_high j hj] at hg
      rw [depthOf_take_loop_high j htot hj] at hd
      exact ⟨hj, hg, hd⟩
  · rintro ⟨hj, hg, hd⟩
    rw [get?_loop_high j hj, depthOf_take_loop_high j htot hj]
    exact ⟨hg, hd⟩

theorem noBadClose_loop {inner tail : List Char}
    (hpre : ∀ m, m ≤ inner.length → 0 ≤ depthOf (inner.take m))
    (htot : depthOf inner = 0) :
    NoBadClose ('[' :: (inner ++ ']' :: tail)) ↔ NoBadClose tail := by
  unfold NoBadClose
  constructor
  · intro h j hj hbad
    have hb3 : BadClose ('[' :: (inner ++ ']' :: tail)) (inner.length + 2 + j) := by
      rw [badClose_loop hpre htot]
      refine ⟨by omega, ?_⟩
      have he : inner.length + 2 + j - (inner.length + 2) = j := by omega
      rwa [he]
    refine h (inner.length + 2 + j) ?_ hb3
    rw [length_loop_shape]
    omega
  · intro h j hj hbad
    rw [badClose_loop hpre htot] at hbad
    obtain ⟨hle, hbad2⟩ := hbad
    rw [length_loop_shape] at hj
    exact h (j - (inner.length + 2)) (by omega) hbad2

theorem topUnmatchedOpen_loop {inner tail : List Char}
    (hpre : ∀ m, m ≤ inner.length → 0 ≤ depthOf (inner.take m))
    (htot : depthOf inner = 0) (j : Nat) :
    TopUnmatchedOpen ('[' :: (inner ++ ']' :: tail)) j ↔
      inner.length + 2 ≤ j ∧ TopUnmatchedOpen tail (j - (inner.length + 2)) := by
  unfold TopUnmatchedOpen
  constructor
  · rintro ⟨hg, hd, hpos⟩
    rcases Nat.lt_or_ge j (inner.length + 2) with hj | hj
    · exfalso
      rcases Nat.eq_zero_or_pos j with hj0 | hjpos
      · subst hj0
        have hp := hpos (inner.length + 2) (by rw [length_loop_shape]; omega) (by omega)
        rw [depthOf_take_loop_high _ htot (le_refl _)] at hp
        rw [Nat.sub_self, List.take_zero, depthOf_nil] at hp
        omega
      · rcases Nat.lt_or_ge j (inner.length + 1) with hjk | hjk1
        · rw [depthOf_take_loop_mid j hjpos (by omega)] at hd
          have := hpre (j - 1) (by omega)
          omega
        · have hj1 : j = inner.length + 1 := by omega
          subst hj1
          rw [get?_loop_close] at hg
          simp at hg
    · rw [get?_loop_high j hj] at hg
      rw [depthOf_take_loop_high j htot hj] at hd
      refine ⟨hj, hg, hd, ?_⟩
      intro q hq hjq
      have hp := hpos (inner.length + 2 + q) (by rw [length_loop_shape]; omega) (by omega)
      rw [depthOf_take_loop_high _ htot (by omega)] at hp
      have he : inner.length + 2 + q - (inner.length + 2) = q := by omega
      rwa [he] at hp
  · rintro ⟨hj, hg, hd, hpos⟩
    refine ⟨by rw [get?_loop_high j hj]; exact hg,
      by rw [depthOf_take_loop_high j htot hj]; exact hd, ?_⟩
    intro q hq hjq
    have hq2 : inner.length + 2 ≤ q := by omega
    rw [depthOf_take_loop_high q htot hq2]
    rw [length_loop_shape] at hq
    exact hpos (q - (inner.length + 2)) (by omega) (by omega)

theorem balancedText_loop {inner tail : List Char}
    (htot : depthOf inner = 0) :
    BalancedText ('[' :: (inner ++ ']' :: tail)) → BalancedText tail := by
  rintro ⟨hp, ht⟩
  constructor
  · intro q hq
    have h2 := hp (inner.length + 2 + q) (by rw [length_loop_shape]; omega)
    rw [depthOf_take_loop_high _ htot (by omega)] at h2
    have he : inner.length + 2 + q - (inner.length + 2) = q := by omega
    rwa [he] at h2
  · have he : depthOf ('[' :: (inner ++ ']' :: tail)) = depthOf tail := by
      rw [depthOf_cons, depthOf_append, depthOf_cons, htot]
      have h1 : delta '[' = 1 := by decide
      have h2 : delta ']' = -1 := by decide
      rw [h1, h2]
      ring
    rw [he] at ht
    exact ht

theorem firstBadClose_loop {inner tail : List Char}
    (hpre : ∀ m, m ≤ inner.length → 0 ≤ depthOf (inner.take m))
    (htot : depthOf inner = 0) (j : Nat) :
    FirstBadClose ('[' :: (inner ++ ']' :: tail)) j ↔
      inner.length + 2 ≤ j ∧ FirstBadClose tail (j - (inner.length + 2)) := by
  unfold FirstBadClose
  constructor
  · rintro ⟨hb, hmin⟩
    rw [badClose_loop hpre htot] at hb
    obtain ⟨hle, hb2⟩ := hb
    refine ⟨hle, hb2, ?_⟩
    intro m hm hbad
    have hb3 : BadClose ('[' :: (inner ++ ']' :: tail)) (inner.length + 2 + m) := by
      rw [badClose_loop hpre htot]
      refine ⟨by omega, ?_⟩
      have he : inner.length + 2 + m - (inner.length + 2) = m := by omega
      rwa [he]
    exact hmin (inner.length + 2 + m) (by omega) hb3
  · rintro ⟨hle, hb2, hmin⟩
    refine ⟨(badClose_loop hpre htot j).2 ⟨hle, hb2⟩, ?_⟩
    intro m hm hbad
    rw [badClose_loop hpre htot] at hbad
    obtain ⟨hle2, hbad2⟩ := hbad
    exact hmin (m - (inner.length + 2)) (by omega) hbad2

theorem parseAux_nil (i : Nat) : parseAux [] i = .ok [] := by
  simp [parseAux]

theorem master_nil (i : Nat) :
    (BalancedText ([] : List Char) → ∃ ops, parseAux [] i = .ok ops) ∧
    (∀ j, FirstBadClose ([] : List Char) j →
      parseAux [] i = .error (.unmatchedCloseBracket (i + j))) ∧
    (∀ j, NoBadClose ([] : List Char) → TopUnmatchedOpen ([] : List Char) j →
      parseAux [] i = .error (.unmatchedOpenBracket (i + j))) := by
  refine ⟨fun _ => ⟨[], parseAux_nil i⟩, ?_, ?_⟩
  · intro j hj
    exfalso
    have hg := hj.1.1
    simp at hg
  · intro j _ hj
    exfalso
    have hg := hj.1
    simp at hg

theorem master_step_run {t : Char} {rest : List Char} {i : Nat}
    (ht : t ≠ '[' ∧ t ≠ ']')
    (hok : ∀ ops, parseAux ((t :: rest).drop (count_consecutive (t :: rest) t))
        (i + count_consecutive (t :: rest) t) = .ok ops →
      ∃ ops2, parseAux (t :: rest) i = .ok ops2)
    (herr : ∀ e, parseAux ((t :: rest).drop (count_consecutive (t :: rest) t))
        (i + count_consecutive (t :: rest) t) = .error e →
      parseAux (t :: rest) i = .error e)
    (ihtail : ∀ i2 : Nat,
      (BalancedText ((t :: rest).drop (count_consecutive (t :: rest) t)) →
        ∃ ops, parseAux ((t :: rest).drop (count_consecutive (t :: rest) t)) i2 = .ok ops) ∧
      (∀ j, FirstBadClose ((t :: rest).drop (count_consecutive (t :: rest) t)) j →
        parseAux ((t :: rest).drop (count_consecutive (t :: rest) t)) i2 =
          .error (.unmatchedCloseBracket (i2 + j))) ∧
      (∀ j, NoBadClose ((t :: rest).drop (count_consecutive (t :: rest) t)) →
        TopUnmatchedOpen ((t :: rest).drop (count_consecutive (t :: rest) t)) j →
        parseAux ((t :: rest).drop (count_consecutive (t :: rest) t)) i2 =
          .error (.unmatchedOpenBracket (i2 + j)))) :
    (BalancedText (t :: rest) → ∃ ops, parseAux (t :: rest) i = .ok ops) ∧
    (∀ j, FirstBadClose (t :: rest) j →
      parseAux (t :: rest) i = .error (.unmatchedCloseBracket (i + j))) ∧
    (∀ j, NoBadClose (t :: rest) → TopUnmatchedOpen (t :: rest) j →
      parseAux (t :: rest) i = .error (.unmatchedOpenBracket (i + j))) := by
  have happ : (t :: rest).take (count_consecutive (t :: rest) t) ++
      (t :: rest).drop (count_consecutive (t :: rest) t) = t :: rest :=
    List.take_append_drop _ _
  have hlen : ((t :: rest).take (count_consecutive (t :: rest) t)).length =
      count_consecutive (t :: rest) t := by
    rw [List.length_take]
    exact Nat.min_eq_left (count_consecutive_le_length (t :: rest) t)
  have hseg : ∀ x ∈ (t :: rest).take (count_consecutive (t :: rest) t),
      x ≠ '[' ∧ x ≠ ']' := by
    intro x hx
    have hxt : x = t := mem_take_count_eq hx
    subst hxt
    exact ht
  obtain ⟨ih1, ih2, ih3⟩ := ihtail (i + count_consecutive (t :: rest) t)
  have hres := master_step_neutral hseg
    (by rw [hlen, happ]; exact hok)
    (by rw [hlen, happ]; exact herr)
    (by rw [hlen]; exact ih1)
    (by rw [hlen]; exact ih2)
    (by rw [hlen]; exact ih3)
  rwa [happ] at hres

theorem master_step_single {c : Char} {rest : List Char} {i : Nat}
    (hc : c ≠ '[' ∧ c ≠ ']')
    (hok : ∀ ops, parseAux rest (i + 1) = .ok ops →
      ∃ ops2, parseAux (c :: rest) i = .ok ops2)
    (herr : ∀ e, parseAux rest (i + 1) = .error e → parseAux (c :: rest) i = .error e)
    (ihtail :
      (BalancedText rest → ∃ ops, parseAux rest (i + 1) = .ok ops) ∧
      (∀ j, FirstBadClose rest j →
        parseAux rest (i + 1) = .error (.unmatchedCloseBracket (i + 1 + j))) ∧
      (∀ j, NoBadClose rest → TopUnmatchedOpen rest j →
        parseAux rest (i + 1) = .error (.unmatchedOpenBracket (i + 1 + j)))) :
    (BalancedText (c :: rest) → ∃ ops, parseAux (c :: rest) i = .ok ops) ∧
    (∀ j, FirstBadClose (c :: rest) j →
      parseAux (c :: rest) i = .error (.unmatchedCloseBracket (i + j))) ∧
    (∀ j, NoBadClose (c :: rest) → TopUnmatchedOpen (c :: rest) j →
      parseAux (c :: rest) i = .error (.unmatchedOpenBracket (i + j))) := by
  obtain ⟨ih1, ih2, ih3⟩ := ihtail
  have hseg : ∀ x ∈ [c], x ≠ '[' ∧ x ≠ ']' := by
    intro x hx
    rw [List.mem_singleton] at hx
    subst hx
    exact hc
  have hres := master_step_neutral hseg
    (by simp only [List.length_singleton, List.singleton_append]; exact hok)
    (by simp only [List.length_singleton, List.singleton_append]; exact herr)
    (by simp only [List.length_singleton]; exact ih1)
    (by simp only [List.length_singleton]; exact ih2)
    (by simp only [List.length_singleton]; exact ih3)
  simpa only [List.singleton_append] using hres

theorem parse_master : ∀ (n : Nat) (l : List Char), l.length ≤ n → ∀ i : Nat,
    (BalancedText l → ∃ ops, parseAux l i = .ok ops) ∧
    (∀ j, FirstBadClose l j → parseAux l i = .error (.unmatchedCloseBracket (i + j))) ∧
    (∀ j, NoBadClose l → TopUnmatchedOpen l j →
      parseAux l i = .error (.unmatchedOpenBracket (i + j))) := by
  intro n
  induction n with
  | zero =>
    intro l hl i
    have h0 : l = [] := List.length_eq_zero.mp (Nat.le_zero.mp hl)
    subst h0
    exact master_nil i
  | succ n ih =>
    intro l hl i
    cases l with
    | nil => exact master_nil i
    | cons c rest =>
      simp only [List.length_cons] at hl
      have hrest : rest.length ≤ n := by omega
      have hdropbound : ∀ t : Char,
          ((t :: rest).drop (count_consecutive (t :: rest) t)).length ≤ n := by
        intro t
        rw [List.length_drop]
        have hcp := count_consecutive_cons_pos t rest
        simp only [List.length_cons]
        omega
      by_cases h1 : c = '>'
      · subst h1
        have hunfold : parseAux ('>' :: rest) i =
            match parseAux (('>' :: rest).drop (count_consecutive ('>' :: rest) '>'))
              (i + count_consecutive ('>' :: rest) '>') with
            | .ok ops => .ok (.moveRight (count_consecutive ('>' :: rest) '>') :: ops)
            | .error e => .error e := by
          simp only [parseAux]
          simp only [dite_true]
        refine master_step_run (by decide) ?_ ?_ (fun i2 => ih _ (hdropbound '>') i2)
        · intro ops h
          rw [hunfold, h]
          exact ⟨_, rfl⟩
        · intro e h
          rw [hunfold, h]
      · by_cases h2 : c = '<'
        · subst h2
          have hunfold : parseAux ('<' :: rest) i =
              match parseAux (('<' :: rest).drop (count_consecutive ('<' :: rest) '<'))
                (i + count_consecutive ('<' :: rest) '<') with
              | .ok ops => .ok (.moveLeft (count_consecutive ('<' :: rest) '<') :: ops)
              | .error e => .error e := by
            simp only [parseAux]
            rw [dif_neg (by decide)]
            simp only [dite_true]
          refine master_step_run (by decide) ?_ ?_ (fun i2 => ih _ (hdropbound '<') i2)
          · intro ops h
            rw [hunfold, h]
            exact ⟨_, rfl⟩
          · intro e h
            rw [hunfold, h]
        · by_cases h3 : c = '+'
          · subst h3
            have hunfold : parseAux ('+' :: rest) i =
                match parseAux (('+' :: rest).drop (count_consecutive ('+' :: rest) '+'))
                  (i + count_consecutive ('+' :: rest) '+') with
                | .ok ops => .ok (.increment (count_consecutive ('+' :: rest) '+' % 256) :: ops)
                | .error e => .error e := by
              simp only [parseAux]
              rw [dif_neg (by decide), dif_neg (by decide)]
              simp only [dite_true]
            refine master_step_run (by decide) ?_ ?_ (fun i2 => ih _ (hdropbound '+') i2)
            · intro ops h
              rw [hunfold, h]
              exact ⟨_, rfl⟩
            · intro e h
              rw [hunfold, h]
          · by_cases h4 : c = '-'
            · subst h4
              have hunfold : parseAux ('-' :: rest) i =
                  match parseAux (('-' :: rest).drop (count_consecutive ('-' :: rest) '-'))
                    (i + count_consecutive ('-' :: rest) '-') with
                  | .ok ops => .ok (.decrement (count_consecutive ('-' :: rest) '-' % 256) :: ops)
                  | .error e => .error e := by
                simp only [parseAux]
                rw [dif_neg (by decide), dif_neg (by decide), dif_neg (by decide)]
                simp only [dite_true]
              refine master_step_run (by decide) ?_ ?_ (fun i2 => ih _ (hdropbound '-') i2)
              · intro ops h
                rw [hunfold, h]
                exact ⟨_, rfl⟩
              · intro e h
                rw [hunfold, h]
            · by_cases h5 : c = '.'
              · subst h5
                have hunfold : parseAux ('.' :: rest) i =
                    match parseAux rest (i + 1) with
                    | .ok ops => .ok (.output :: ops)
                    | .error e => .error e := by
                  simp only [parseAux]
                  rw [dif_neg (by decide), dif_neg (by decide), dif_neg (by decide),
                    dif_neg (by decide)]
                  simp only [if_true]
                refine master_step_single (by decide) ?_ ?_ (ih rest hrest (i + 1))
                · intro ops h
                  rw [hunfold, h]
                  exact ⟨_, rfl⟩
                · intro e h
                  rw [hunfold, h]
              · by_cases h6 : c = ','
                · subst h6
                  have hunfold : parseAux (',' :: rest) i =
                      match parseAux rest (i + 1) with
                      | .ok ops => .ok (.input :: ops)
                      | .error e => .error e := by
                    simp only [parseAux]
                    rw [dif_neg (by decide), dif_neg (by decide), dif_neg (by decide),
                      dif_neg (by decide), if_neg (by decide)]
                    simp only [if_true]
                  refine master_step_single (by decide) ?_ ?_ (ih rest hrest (i + 1))
                  · intro ops h
                    rw [hunfold, h]
                    exact ⟨_, rfl⟩
                  · intro e h
                    rw [hunfold, h]
                · by_cases h7 : c = '['
                  · subst h7
                    cases hscan : scan_match rest 1 with
                    | none =>
                      have hnone := scan_match_none rest 1 (by omega) hscan
                      have hδ1 : delta '[' = 1 := by decide
                      have hunfold : parseAux ('[' :: rest) i =
                          .error (.unmatchedOpenBracket i) := by
                        simp only [parseAux]
                        rw [dif_neg (by decide), dif_neg (by decide), dif_neg (by decide),
                          dif_neg (by decide), if_neg (by decide), if_neg (by decide)]
                        simp only [if_true]
                        simp only [hscan]
                      refine ⟨?_, ?_, ?_⟩
                      · intro hb
                        exfalso
                        have htot2 := hb.2
                        rw [depthOf_cons, hδ1] at htot2
                        have hn := hnone rest.length (le_refl _)
                        rw [List.take_length] at hn
                        omega
                      · intro j hj
                        exfalso
                        have hg := hj.1.1
                        have hd := hj.1.2
                        cases j with
                        | zero => simp at hg
                        | succ j2 =>
                          simp only [List.get?_cons_succ] at hg
                          obtain ⟨hlt2, _⟩ := List.get?_eq_some.mp hg
                          rw [List.take_succ_cons, depthOf_cons, hδ1] at hd
                          have := hnone j2 (by omega)
                          omega
                      · intro j hnb hj
                        have hj0 : j = 0 := by
                          by_contra hne
                          obtain ⟨j2, rfl⟩ : ∃ j2, j = j2 + 1 := ⟨j - 1, by omega⟩
                          have hg := hj.1
                          simp only [List.get?_cons_succ] at hg
                          obtain ⟨hlt2, _⟩ := List.get?_eq_some.mp hg
                          have hd := hj.2.1
                          rw [List.take_succ_cons, depthOf_cons, hδ1] at hd
                          have := hnone j2 (by omega)
                          omega
                        subst hj0
                        rw [hunfold]
                        norm_num
                    | some k =>
                      obtain ⟨hklt, hkget, hkdep, hkmin⟩ :=
                        scan_match_some rest 1 k (by omega) hscan
                      have hδ1 : delta '[' = 1 := by decide
                      have hδ2 : delta ']' = -1 := by decide
                      have hk2 : rest[k]? = some ']' := by
                        rw [← List.get?_eq_getElem?]
                        exact hkget
                      have hdropk : rest.drop k = ']' :: rest.drop (k + 1) := by
                        rw [List.drop_eq_getElem_cons hklt]
                        obtain ⟨hh, hv⟩ := List.getElem?_eq_some.mp hk2
                        rw [hv]
                      have hsplit : rest = rest.take k ++ ']' :: rest.drop (k + 1) := by
                        conv_lhs => rw [← List.take_append_drop k rest]
                        rw [hdropk]
                      have hinner_len : (rest.take k).length = k := by
                        rw [List.length_take]
                        exact Nat.min_eq_left (by omega)
                      have hinner_pre : ∀ m, m ≤ (rest.take k).length →
                          0 ≤ depthOf ((rest.take k).take m) := by
                        intro m hm
                        rw [hinner_len] at hm
                        rw [List.take_take, Nat.min_eq_left hm]
                        have := hkmin m (by omega)
                        omega
                      have hinner_tot : depthOf (rest.take k) = 0 := by
                        have hd1 := hkdep
                        rw [List.take_succ, hk2] at hd1
                        simp only [Option.toList_some] at hd1
                        rw [depthOf_append, depthOf_cons, depthOf_nil, hδ2] at hd1
                        omega
                      have hinner_bal : BalancedText (rest.take k) := ⟨hinner_pre, hinner_tot⟩
                      obtain ⟨opsInner, hopsInner⟩ :=
                        (ih (rest.take k) (by rw [hinner_len]; omega) 0).1 hinner_bal
                      have hdroplen : (rest.drop (k + 1)).length ≤ n := by
                        rw [List.length_drop]
                        omega
                      have hunfold : parseAux ('[' :: rest) i =
                          match parseAux (rest.drop (k + 1)) (i + k + 2) with
                          | .error e => .error e
                          | .ok ops => .ok (.loop opsInner :: ops) := by
                        simp only [parseAux]
                        rw [dif_neg (by decide), dif_neg (by decide), dif_neg (by decide),
                          dif_neg (by decide), if_neg (by decide), if_neg (by decide)]
                        simp only [if_true]
                        simp only [hscan]
                        simp only [hopsInner]
                      have hlshape : ('[' :: rest) =
                          '[' :: (rest.take k ++ ']' :: rest.drop (k + 1)) := by
                        rw [← hsplit]
                      refine ⟨?_, ?_, ?_⟩
                      · intro hb
                        rw [hlshape] at hb
                        have hbt := balancedText_loop hinner_tot hb
                        obtain ⟨ops, hops⟩ := (ih (rest.drop (k + 1)) hdroplen (i + k + 2)).1 hbt
                        rw [hunfold, hops]
                        exact ⟨_, rfl⟩
                      · intro j hj
                        rw [hlshape] at hj
                        rw [firstBadClose_loop hinner_pre hinner_tot] at hj
                        obtain ⟨hle, hj2⟩ := hj
                        have h2 := (ih (rest.drop (k + 1)) hdroplen (i + k + 2)).2.1 _ hj2
                        rw [hinner_len] at hle
                        have heq : i + k + 2 + (j - ((rest.take k).length + 2)) = i + j := by
                          rw [hinner_len]
                          omega
                        rw [heq] at h2
                        rw [hunfold, h2]
                      · intro j hnb hj
                        rw [hlshape] at hnb hj
                        rw [topUnmatchedOpen_loop hinner_pre hinner_tot] at hj
                        have hnb2 := (noBadClose_loop hinner_pre hinner_tot).1 hnb
                        obtain ⟨hle, hj2⟩ := hj
                        have h3 := (ih (rest.drop (k + 1)) hdroplen (i + k + 2)).2.2 _ hnb2 hj2
                        rw [hinner_len] at hle
                        have heq : i + k + 2 + (j - ((rest.take k).length + 2)) = i + j := by
                          rw [hinner_len]
                          omega
                        rw [heq] at h3
                        rw [hunfold, h3]
                  · by_cases h8 : c = ']'
                    · subst h8
                      have hunfold : parseAux (']' :: rest) i =
                          .error (.unmatchedCloseBracket i) := by
                        simp only [parseAux]
                        rw [dif_neg (by decide), dif_neg (by decide), dif_neg (by decide),
                          dif_neg (by decide), if_neg (by decide), if_neg (by decide),
                          if_neg (by decide)]
                        simp only [if_true]
                      have hbc0 : BadClose (']' :: rest) 0 := ⟨rfl, rfl⟩
                      refine ⟨?_, ?_, ?_⟩
                      · intro hb
                        exfalso
                        have hp1 := hb.1 1 (by simp)
                        have ht1 : (']' :: rest).take 1 = [']'] := rfl
                        rw [ht1] at hp1
                        have hδ : depthOf [']'] = -1 := by decide
                        rw [hδ] at hp1
                        omega
                      · intro j hj
                        have hj0 : j = 0 := by
                          by_contra hne
                          exact (hj.2 0 (by omega)) hbc0
                        subst hj0
                        rw [hunfold]
                        norm_num
                      · intro j hnb hj
                        exfalso
                        exact hnb 0 (by simp) hbc0
                    · by_cases h9 : c = '%'
                      · subst h9
                        have hunfold : parseAux ('%' :: rest) i =
                            match parseAux rest (i + 1) with
                            | .ok ops => .ok (.connect :: ops)
                            | .error e => .error e := by
                          simp only [parseAux]
                          rw [dif_neg (by decide), dif_neg (by decide), dif_neg (by decide),
                            dif_neg (by decide), if_neg (by decide), if_neg (by decide),
                            if_neg (by decide), if_neg (by decide)]
                          simp only [if_true]
                        refine master_step_single (by decide) ?_ ?_ (ih rest hrest (i + 1))
                        · intro ops h
                          rw [hunfold, h]
                          exact ⟨_, rfl⟩
                        · intro e h
                          rw [hunfold, h]
                      · by_cases h10 : c = '$'
                        · subst h10
                          have hunfold : parseAux ('$' :: rest) i =
                              match parseAux rest (i + 1) with
                              | .ok ops => .ok (.listen :: ops)
                              | .error e => .error e := by
                            simp only [parseAux]
                            rw [dif_neg (by decide), dif_neg (by decide), dif_neg (by decide),
                              dif_neg (by decide), if_neg (by decide), if_neg (by decide),
                              if_neg (by decide), if_neg (by decide), if_neg (by decide)]
                            simp only [if_true]
                          refine master_step_single (by decide) ?_ ?_ (ih rest hrest (i + 1))
                          · intro ops h
                            rw [hunfold, h]
                            exact ⟨_, rfl⟩
                          · intro e h
                            rw [hunfold, h]
                        · by_cases h11 : c = '@'
                          · subst h11
                            have hunfold : parseAux ('@' :: rest) i =
                                match parseAux rest (i + 1) with
                                | .ok ops => .ok (.accept :: ops)
                                | .error e => .error e := by
                              simp only [parseAux]
                              rw [dif_neg (by decide), dif_neg (by decide), dif_neg (by decide),
                                dif_neg (by decide), if_neg (by decide), if_neg (by decide),
                                if_neg (by decide), if_neg (by decide), if_neg (by decide),
                                if_neg (by decide)]
                              simp only [if_true]
                            refine master_step_single (by decide) ?_ ?_ (ih rest hrest (i + 1))
                            · intro ops h
                              rw [hunfold, h]
                              exact ⟨_, rfl⟩
                            · intro e h
                              rw [hunfold, h]
                          · by_cases h12 : c = chBacktick
                            · subst h12
                              have hunfold : parseAux (chBacktick :: rest) i =
                                  match parseAux rest (i + 1) with
                                  | .ok ops => .ok (.receive :: ops)
                                  | .error e => .error e := by
                                simp only [parseAux]
                                rw [dif_neg (by decide), dif_neg (by decide), dif_neg (by decide),
                                  dif_neg (by decide), if_neg (by decide), if_neg (by decide),
                                  if_neg (by decide), if_neg (by decide), if_neg (by decide),
                                  if_neg (by decide), if_neg (by decide)]
                                simp only [if_true]
                              refine master_step_single (by decide) ?_ ?_ (ih rest hrest (i + 1))
                              · intro ops h
                                rw [hunfold, h]
                                exact ⟨_, rfl⟩
                              · intro e h
                                rw [hunfold, h]
                            · by_cases h13 : c = chQuote
                              · subst h13
                                have hunfold : parseAux (chQuote :: rest) i =
                                    match parseAux rest (i + 1) with
                                    | .ok ops => .ok (.send :: ops)
                                    | .error e => .error e := by
                                  simp only [parseAux]
                                  rw [dif_neg (by decide), dif_neg (by decide),
                                    dif_neg (by decide), dif_neg (by decide),
                                    if_neg (by decide), if_neg (by decide), if_neg (by decide),
                                    if_neg (by decide), if_neg (by decide), if_neg (by decide),
                                    if_neg (by decide), if_neg (by decide)]
                                  simp only [if_true]
                                refine master_step_single (by decide) ?_ ?_ (ih rest hrest (i + 1))
                                · intro ops h
                                  rw [hunfold, h]
                                  exact ⟨_, rfl⟩
                                · intro e h
                                  rw [hunfold, h]
                              · have hunfold : parseAux (c :: rest) i = parseAux rest (i + 1) := by
                                  simp only [parseAux]
                                  rw [dif_neg h1, dif_neg h2, dif_neg h3, dif_neg h4,
                                    if_neg h5, if_neg h6, if_neg h7, if_neg h8, if_neg h9,
                                    if_neg h10, if_neg h11, if_neg h12, if_neg h13]
                                refine master_step_single ⟨h7, h8⟩ ?_ ?_ (ih rest hrest (i + 1))
                                · intro ops h
                                  rw [hunfold]
                                  exact ⟨ops, h⟩
                                · intro e h
                                  rw [hunfold]
                                  exact h

/-- C5: parsing error policy for unmatched brackets.  Whenever the text has a
`]` at bracket depth zero ("reached with no enclosing open bracket"), parsing
fails with an unmatched-close-bracket error carrying the 0-based character
index of the first such `]` (scanning is left to right, so the first one is
the one reached); whenever no such `]` exists and some `[` at depth zero is
never matched (the depth stays positive to the end of the text — exactly the
`[` whose depth-counting scan fails), parsing fails with an
unmatched-open-bracket error carrying that `[`'s own 0-based index.  In both
cases the result is an error, so no operation sequence is produced. -/
theorem C5_unmatched_bracket_errors (chars : List Char) :
    (∀ j, FirstBadClose chars j →
      parse chars = .error (.unmatchedCloseBracket j)) ∧
    (∀ j, NoBadClose chars → TopUnmatchedOpen chars j →
      parse chars = .error (.unmatchedOpenBracket j)) := by
  have h := parse_master chars.length chars (le_refl _) 0
  refine ⟨?_, ?_⟩
  · intro j hj
    have h2 := h.2.1 j hj
    rw [Nat.zero_add] at h2
    show parseAux chars 0 = _
    exact h2
  · intro j hnb hj
    have h2 := h.2.2 j hnb hj
    rw [Nat.zero_add] at h2
    show parseAux chars 0 = _
    exact h2

/-- C5 witness: `+]` has its bare `]` at index 1 and parses to an
unmatched-close error at 1; `[` has an unmatched `[` at index 0 and parses
to an unmatched-open error at 0. -/
theorem C5_unmatched_bracket_errors_witness :
    (FirstBadClose ['+', ']'] 1 ∧
      parse ['+', ']'] = .error (.unmatchedCloseBracket 1)) ∧
    (NoBadClose ['['] ∧ TopUnmatchedOpen ['['] 0 ∧
      parse ['['] = .error (.unmatchedOpenBracket 0)) :=
  ⟨⟨by decide, (C5_unmatched_bracket_errors ['+', ']']).1 1 (by decide)⟩,
   ⟨by decide, by decide,
    (C5_unmatched_bracket_errors ['[']).2 0 (by decide) (by decide)⟩⟩
